import Mathlib

set_option linter.unusedVariables false

/-! Shallow embedding of the SCS study-room booking core: the constants of
`types.ts` and the booking logic of `BookingForm.tsx` (`slotStatus`,
`toggleSlot`, `handleSubmit`), together with the store-append step performed
on an admitted submission. -/

/-- The persisted reservation record (`Booking` in `types.ts`).  The `leader`
field stores the booker's name and the `members` field stores the role string
("leader" or "member"), as documented in the source.  The store-assigned
`id` / `created_at` fields are never read by the booking core and are
omitted. -/
structure Booking where
  date : String
  slot : String
  leader : String
  members : String
deriving DecidableEq, Repr

/-- `TIME_SLOTS` from `types.ts`: the ordered slot catalog. -/
def TIME_SLOTS : List String := ["9:00-13:00", "14:00-18:00", "19:00-22:30"]

/-- `MAX_CAPACITY` from `types.ts`: per-slot capacity. -/
def MAX_CAPACITY : Nat := 3

/-- `EXAM_END_DATE` from `types.ts`: the celebration-trigger date. -/
def EXAM_END_DATE : String := "2026-01-12"

/-- Model of JavaScript `s.split(',')`: cut the character list at every
comma (`acc` holds the characters of the current fragment, reversed). -/
def splitAux (acc : List Char) : List Char → List (List Char)
  | [] => [acc.reverse]
  | c :: rest => if c = ',' then acc.reverse :: splitAux [] rest else splitAux (c :: acc) rest

def splitComma (s : String) : List String :=
  (splitAux [] s.toList).map fun cs => String.mk cs

/-- Model of JavaScript `s.trim()`: drop whitespace from both ends. -/
def trimStr (s : String) : String :=
  String.mk (((s.toList.dropWhile Char.isWhitespace).reverse.dropWhile Char.isWhitespace).reverse)

/-- The slot labels occupied by a stored slot string:
`b.slot.split(',').map(s => s.trim())` in the source. -/
def slotsOfStr (s : String) : List String := (splitComma s).map trimStr

/-- The slot labels occupied by a reservation record. -/
def slotsOf (b : Booking) : List String := slotsOfStr b.slot

/-- Per-slot derived occupancy: the `{ count, hasLeader }` values held by the
`slotStatus` map in `BookingForm.tsx`. -/
structure SlotOcc where
  count : Nat
  hasLeader : Bool
deriving DecidableEq, Repr

/-- Insertion-ordered association list, modelling the JavaScript `Map`
used by `slotStatus`. -/
abbrev SMap := List (String × SlotOcc)

/-- `Map.set`: overwrite the first binding of the key, else append. -/
def mapSet : SMap → String → SlotOcc → SMap
  | [], k, v => [(k, v)]
  | (k₁, v₁) :: rest, k, v =>
    if k₁ = k then (k, v) :: rest else (k₁, v₁) :: mapSet rest k v

/-- `Map.get`: first binding of the key, if any. -/
def mapGet : SMap → String → Option SlotOcc
  | [], _ => none
  | (k₁, v₁) :: rest, k => if k₁ = k then some v₁ else mapGet rest k

/-- The initialization loop of `slotStatus`:
`TIME_SLOTS.forEach(t => status.set(t, { count: 0, hasLeader: false }))`. -/
def initStatus : SMap := TIME_SLOTS.foldl (fun m t => mapSet m t ⟨0, false⟩) []

/-- One `status.set` update of the inner loop of `slotStatus`: read the
current value (defaulting to `{0, false}`), then increment the count and
OR in the leader flag. -/
def bumpSlot (isL : Bool) (m : SMap) (s : String) : SMap :=
  mapSet m s ⟨((mapGet m s).getD ⟨0, false⟩).count + 1,
              ((mapGet m s).getD ⟨0, false⟩).hasLeader || isL⟩

/-- Processing of one same-date booking by `slotStatus`: bump every slot
label the booking occupies, with `isLeader = (b.members === 'leader')`. -/
def applyBooking (m : SMap) (b : Booking) : SMap :=
  (slotsOf b).foldl (bumpSlot (b.members == "leader")) m

/-- `slotStatus` from `BookingForm.tsx`: the derived per-slot occupancy map
for the given date, built from the date-matching bookings over the
catalog-initialized map. -/
def slotStatus (existingBookings : List Booking) (date : String) : SMap :=
  (existingBookings.filter fun b => b.date == date).foldl applyBooking initStatus

/-- `toggleSlot` from `BookingForm.tsx`: ignore unknown or full slots;
otherwise re-selecting the current slot clears the selection and selecting
any other slot replaces it (single-choice logic). -/
def toggleSlot (status : SMap) (selectedSlots : List String) (slot : String) : List String :=
  match mapGet status slot with
  | none => selectedSlots
  | some st =>
    if MAX_CAPACITY ≤ st.count then selectedSlots
    else if selectedSlots.contains slot then [] else [slot]

/-- The two role values of the form state (`'leader' | 'member'`). -/
inductive Role where
  | leader
  | member
deriving DecidableEq, Repr

/-- The string stored in the `members` column for a role. -/
def roleString : Role → String
  | .leader => "leader"
  | .member => "member"

/-- `role === 'leader'`. -/
def roleIsLeader : Role → Bool
  | .leader => true
  | .member => false

/-- Rejection reasons, one per distinct `setError` message of
`handleSubmit` (spec §7 taxonomy). -/
inductive RejectReason where
  | MissingSlot
  | MissingName
  | SlotFull (slot : String)
  | LeaderConflict (slot : String)
  | ConsecutiveLeadership
  | DuplicateBooking
deriving DecidableEq, Repr

/-- Step 3 of `handleSubmit`: the per-slot loop checking capacity and then
leader uniqueness; a slot absent from the status map is skipped
(`continue`). -/
def checkSlots (status : SMap) (role : Role) : List String → Option RejectReason
  | [] => none
  | s :: rest =>
    match mapGet status s with
    | none => checkSlots status role rest
    | some st =>
      if MAX_CAPACITY ≤ st.count then some (.SlotFull s)
      else if roleIsLeader role && st.hasLeader then some (.LeaderConflict s)
      else checkSlots status role rest

/-- `l.includes(x)` on string lists. -/
def listHas (l : List String) (x : String) : Bool :=
  match l with
  | [] => false
  | y :: rest => (y == x) || listHas rest x

/-- Concatenation of a list of fragment lists (`flatMap` body). -/
def concatAll : List (List String) → List String
  | [] => []
  | l :: rest => l ++ concatAll rest

/-- `[...new Set(l)]`: deduplicate keeping first occurrences. -/
def setDedup (l : List String) : List String :=
  l.foldl (fun acc x => if listHas acc x then acc else acc ++ [x]) []

/-- `catalog.indexOf(s)` as an option (the source filters out `-1`). -/
def indexIn (s : String) : List String → Option Nat
  | [] => none
  | t :: rest => if t == s then some 0 else (indexIn s rest).map (· + 1)

def insertSortedNat (x : Nat) : List Nat → List Nat
  | [] => [x]
  | y :: ys => if x ≤ y then x :: y :: ys else y :: insertSortedNat x ys

/-- Ascending numeric sort (`indices.sort((a, b) => a - b)`). -/
def sortNat (l : List Nat) : List Nat := l.foldr insertSortedNat []

/-- The adjacency scan of step 4d: is some adjacent pair of the list a
consecutive pair of indices (`indices[i+1] === indices[i] + 1`)? -/
def hasAdjacent : List Nat → Bool
  | [] => false
  | [_] => false
  | a :: b :: rest => (b == a + 1) || hasAdjacent (b :: rest)

/-- Step 4 of `handleSubmit` (anti-consecutive-leadership): gather the slots
where the booker already holds a leader reservation on the date, union with
the current selection, map to catalog indices, sort, and look for two
consecutive indices. -/
def consecutiveFails (existingBookings : List Booking) (date nameTrim : String)
    (selectedSlots : List String) : Bool :=
  hasAdjacent (sortNat
    (((setDedup
        (concatAll
          ((existingBookings.filter fun b =>
              b.date == date && b.leader == nameTrim && b.members == "leader").map slotsOf)
          ++ selectedSlots)).map fun s => indexIn s TIME_SLOTS).filterMap id))

/-- Step 5 of `handleSubmit` (duplicate submission): some history record has
the same date, the same (trimmed) name, and occupies a selected slot. -/
def isDuplicate (existingBookings : List Booking) (date nameTrim : String)
    (selectedSlots : List String) : Bool :=
  existingBookings.any fun b =>
    b.date == date && b.leader == nameTrim && (slotsOf b).any fun s => listHas selectedSlots s

def insertSortedStr (x : String) : List String → List String
  | [] => [x]
  | y :: ys => if x ≤ y then x :: y :: ys else y :: insertSortedStr x ys

/-- `[...selectedSlots].sort()`: ascending string sort. -/
def sortStrings (l : List String) : List String := l.foldr insertSortedStr []

/-- `array.join(', ')`. -/
def joinComma : List String → String
  | [] => ""
  | [s] => s
  | s :: rest => s ++ ", " ++ joinComma rest

/-- The record passed to the insert on an admitted submission: the date, the
trimmed name, the role string, and the sorted comma-joined selection. -/
def mkBooking (date nameTrim : String) (role : Role) (selectedSlots : List String) : Booking :=
  { date := date
    leader := nameTrim
    members := roleString role
    slot := joinComma (sortStrings selectedSlots) }

/-- `handleSubmit` from `BookingForm.tsx` as a decision function: the five
validation checks in source order, returning the first rejection or the
record that gets inserted. -/
def handleSubmit (existingBookings : List Booking) (date name : String) (role : Role)
    (selectedSlots : List String) : Except RejectReason Booking :=
  if selectedSlots.isEmpty then .error .MissingSlot
  else if trimStr name == "" then .error .MissingName
  else
    match checkSlots (slotStatus existingBookings date) role selectedSlots with
    | some r => .error r
    | none =>
      if roleIsLeader role && consecutiveFails existingBookings date (trimStr name) selectedSlots then
        .error .ConsecutiveLeadership
      else if isDuplicate existingBookings date (trimStr name) selectedSlots then
        .error .DuplicateBooking
      else .ok (mkBooking date (trimStr name) role selectedSlots)

/-- One submission attempt against the store: a date, a name, a role and the
single chosen slot (the form's selection holds at most one label). -/
structure SubmitReq where
  date : String
  name : String
  role : Role
  slot : String
deriving DecidableEq, Repr

/-- Effect of one submission on the store: append the record on admit,
leave the store unchanged on any rejection (`handleSubmit` returns before
the insert). -/
def applySubmit (h : List Booking) (r : SubmitReq) : List Booking :=
  match handleSubmit h r.date r.name r.role [r.slot] with
  | .ok b => h ++ [b]
  | .error _ => h

/-- A sequence of submissions processed one after another, each validated
against the store refreshed by the previous ones. -/
def processAll (h : List Booking) (rs : List SubmitReq) : List Booking :=
  rs.foldl applySubmit h

/-- `handleSubmit` including the post-insert celebration check: on success
the celebration modal is shown exactly when `date === EXAM_END_DATE` (the
trigger date is threaded as a parameter). -/
def submitWithCelebration (examEndDate : String) (existingBookings : List Booking)
    (date name : String) (role : Role) (selectedSlots : List String) :
    Except RejectReason (Booking × Bool) :=
  match handleSubmit existingBookings date name role selectedSlots with
  | .error r => .error r
  | .ok b => .ok (b, date == examEndDate)

deriving instance DecidableEq for Except

/-! Spec-side (§4.1) readings of the derived occupancy, used to state the
claims about `slotStatus`. -/

/-- Number of occurrences of a label in a fragment list. -/
def countOcc (t : String) : List String → Nat
  | [] => 0
  | s :: rest => (if s == t then 1 else 0) + countOcc t rest

/-- Is a label among a fragment list? -/
def hasOcc (t : String) : List String → Bool
  | [] => false
  | s :: rest => (s == t) || hasOcc t rest

/-- Total occurrences of a label over a booking list (no date filter). -/
def occAll (t : String) : List Booking → Nat
  | [] => 0
  | b :: rest => countOcc t (slotsOf b) + occAll t rest

/-- Some booking of the list is a leader record occupying the label. -/
def ldrAll (t : String) : List Booking → Bool
  | [] => false
  | b :: rest => ((b.members == "leader") && hasOcc t (slotsOf b)) || ldrAll t rest

/-- Spec-side occupant count for a (date, slot) pair: each reservation with
a matching date contributes one occupant per occurrence of the label among
the slots it occupies. -/
def occCountSpec (d t : String) : List Booking → Nat
  | [] => 0
  | b :: rest => (if b.date == d then countOcc t (slotsOf b) else 0) + occCountSpec d t rest

/-- Spec-side leader flag for a (date, slot) pair: some reservation with a
matching date has role leader and occupies the label. -/
def hasLeaderSpec (d t : String) : List Booking → Bool
  | [] => false
  | b :: rest =>
    ((b.date == d) && ((b.members == "leader") && hasOcc t (slotsOf b))) || hasLeaderSpec d t rest

/-- Number of leader reservations occupying a (date, slot) pair. -/
def leaderCountSpec (d t : String) : List Booking → Nat
  | [] => 0
  | b :: rest =>
    (if (b.date == d) && ((b.members == "leader") && hasOcc t (slotsOf b)) then 1 else 0) +
      leaderCountSpec d t rest

/-! Association-list map lemmas. -/

theorem mapGet_set_self (m : SMap) (k : String) (v : SlotOcc) :
    mapGet (mapSet m k v) k = some v := by
  induction m with
  | nil => simp [mapSet, mapGet]
  | cons p rest ih =>
    obtain ⟨k₁, v₁⟩ := p
    by_cases h : k₁ = k <;> simp [mapSet, mapGet, h, ih]

theorem mapGet_set_ne (m : SMap) (k k' : String) (v : SlotOcc) (h : k ≠ k') :
    mapGet (mapSet m k v) k' = mapGet m k' := by
  induction m with
  | nil => simp [mapSet, mapGet, h]
  | cons p rest ih =>
    obtain ⟨k₁, v₁⟩ := p
    by_cases h1 : k₁ = k
    · subst h1
      simp [mapSet, mapGet, h]
    · simp [mapSet, mapGet, h1, ih]

/-- The value-evolution of the inner `forEach` loop of `slotStatus` at a
tracked key. -/
theorem bump_fold_get (isL : Bool) (t : String) (ls : List String) :
    ∀ (m : SMap) (c : Nat) (hl : Bool), mapGet m t = some ⟨c, hl⟩ →
      mapGet (ls.foldl (bumpSlot isL) m) t =
        some ⟨c + countOcc t ls, hl || (isL && hasOcc t ls)⟩ := by
  induction ls with
  | nil => intro m c hl h; simpa [countOcc, hasOcc] using h
  | cons s rest ih =>
    intro m c hl h
    simp only [List.foldl_cons]
    by_cases hst : s = t
    · subst hst
      have h1 : mapGet (bumpSlot isL m s) s = some ⟨c + 1, hl || isL⟩ := by
        simp [bumpSlot, h, mapGet_set_self]
      rw [ih (bumpSlot isL m s) (c + 1) (hl || isL) h1]
      simp only [countOcc, hasOcc, beq_self_eq_true, if_true, Bool.true_or, Option.some.injEq,
        SlotOcc.mk.injEq]
      constructor
      · omega
      · cases hl <;> cases isL <;> cases hasOcc s rest <;> rfl
    · have h1 : mapGet (bumpSlot isL m s) t = some ⟨c, hl⟩ := by
        rw [bumpSlot, mapGet_set_ne _ _ _ _ hst, h]
      rw [ih (bumpSlot isL m s) c hl h1]
      have hb : (s == t) = false := by simp [hst]
      simp [countOcc, hasOcc, hb]

/-- The value-evolution of the outer booking loop of `slotStatus` at a
tracked key. -/
theorem apply_fold_get (t : String) (bs : List Booking) :
    ∀ (m : SMap) (c : Nat) (hl : Bool), mapGet m t = some ⟨c, hl⟩ →
      mapGet (bs.foldl applyBooking m) t = some ⟨c + occAll t bs, hl || ldrAll t bs⟩ := by
  induction bs with
  | nil => intro m c hl h; simpa [occAll, ldrAll] using h
  | cons b rest ih =>
    intro m c hl h
    simp only [List.foldl_cons]
    have h1 := bump_fold_get (b.members == "leader") t (slotsOf b) m c hl h
    rw [applyBooking] at *
    rw [ih _ _ _ h1]
    simp only [occAll, ldrAll, Option.some.injEq, SlotOcc.mk.injEq]
    constructor
    · omega
    · cases hl <;> cases ldrAll t rest <;>
        cases (b.members == "leader") <;> cases hasOcc t (slotsOf b) <;> rfl

/-- Every catalog label is initialized to `{0, false}`. -/
theorem initStatus_get (t : String) (ht : t ∈ TIME_SLOTS) :
    mapGet initStatus t = some ⟨0, false⟩ := by
  fin_cases ht <;> decide

theorem occAll_filter (d t : String) (h : List Booking) :
    occAll t (h.filter fun b => b.date == d) = occCountSpec d t h := by
  induction h with
  | nil => rfl
  | cons b rest ih =>
    by_cases hb : (b.date == d) = true <;>
      simp_all [occAll, occCountSpec, List.filter_cons]

theorem ldrAll_filter (d t : String) (h : List Booking) :
    ldrAll t (h.filter fun b => b.date == d) = hasLeaderSpec d t h := by
  induction h with
  | nil => rfl
  | cons b rest ih =>
    by_cases hb : (b.date == d) = true <;>
      simp_all [ldrAll, hasLeaderSpec, List.filter_cons]

/-- Characterization of the derived index (shared helper): at every catalog
label, `slotStatus` holds exactly the date-filtered occupant count and
leader flag. -/
theorem slotStatus_get (h : List Booking) (d t : String) (ht : t ∈ TIME_SLOTS) :
    mapGet (slotStatus h d) t = some ⟨occCountSpec d t h, hasLeaderSpec d t h⟩ := by
  have h0 := initStatus_get t ht
  have h1 := apply_fold_get t (h.filter fun b => b.date == d) initStatus 0 false h0
  rw [slotStatus, h1, occAll_filter, ldrAll_filter]
  simp

/-! Spec-side staged validator (spec §4.2): independent rule stages applied
in the fixed order, the first failing stage returning its reason. -/

/-- Stage 1a: no slot selected. -/
def wfSlotFails (sel : List String) : Bool := sel.isEmpty

/-- Stage 1b: name empty after trimming. -/
def wfNameFails (name : String) : Bool := trimStr name == ""

/-- Stage 2 at one slot: the derived index shows the slot at or above
capacity (an unknown slot never fails this stage). -/
def capacityFailsAt (status : SMap) (s : String) : Bool :=
  match mapGet status s with
  | some st => MAX_CAPACITY ≤ st.count
  | none => false

/-- Stage 3 at one slot: the derived index already shows a leader. -/
def leaderOccupiedAt (status : SMap) (s : String) : Bool :=
  match mapGet status s with
  | some st => st.hasLeader
  | none => false

/-- First selected slot failing a stage predicate, if any. -/
def findFail (p : String → Bool) : List String → Option String
  | [] => none
  | s :: rest => if p s then some s else findFail p rest

/-- The validator as the spec words it: well-formedness (slot, then name),
capacity, role-uniqueness, anti-consecutive-leadership, duplicate
submission, short-circuiting at the first failure; on success the validated
record. -/
def stagedValidate (existingBookings : List Booking) (date name : String) (role : Role)
    (selectedSlots : List String) : Except RejectReason Booking :=
  if wfSlotFails selectedSlots then .error .MissingSlot
  else if wfNameFails name then .error .MissingName
  else
    match findFail (capacityFailsAt (slotStatus existingBookings date)) selectedSlots with
    | some s => .error (.SlotFull s)
    | none =>
      match (if roleIsLeader role then
               findFail (leaderOccupiedAt (slotStatus existingBookings date)) selectedSlots
             else none) with
      | some s => .error (.LeaderConflict s)
      | none =>
        if roleIsLeader role && consecutiveFails existingBookings date (trimStr name) selectedSlots then
          .error .ConsecutiveLeadership
        else if isDuplicate existingBookings date (trimStr name) selectedSlots then
          .error .DuplicateBooking
        else .ok (mkBooking date (trimStr name) role selectedSlots)

/-- Shared helper: on the requests of the spec's model (at most one chosen
slot) the source's `handleSubmit` coincides with the staged validator. -/
theorem handleSubmit_eq_staged (h : List Booking) (d n : String) (ρ : Role) (sel : List String)
    (hlen : sel.length ≤ 1) :
    handleSubmit h d n ρ sel = stagedValidate h d n ρ sel := by
  cases sel with
  | nil => rfl
  | cons s rest =>
    cases rest with
    | cons s' rest' => simp [List.length_cons] at hlen
    | nil =>
      simp only [handleSubmit, stagedValidate, wfSlotFails, wfNameFails]
      cases hg : mapGet (slotStatus h d) s with
      | none =>
        simp [checkSlots, findFail, capacityFailsAt, leaderOccupiedAt, hg]
      | some st =>
        by_cases hc : MAX_CAPACITY ≤ st.count
        · simp [checkSlots, findFail, capacityFailsAt, hg, hc]
        · cases hρ : roleIsLeader ρ with
          | false =>
            simp [checkSlots, findFail, capacityFailsAt, leaderOccupiedAt, hg, hc, hρ]
          | true =>
            cases hhl : st.hasLeader with
            | false =>
              simp [checkSlots, findFail, capacityFailsAt, leaderOccupiedAt, hg, hc, hρ, hhl]
            | true =>
              simp [checkSlots, findFail, capacityFailsAt, leaderOccupiedAt, hg, hc, hρ, hhl]

/-- Shared helper: stage facts recoverable from an admitted single-slot
submission. -/
theorem handleSubmit_ok_inv (h : List Booking) (d n : String) (ρ : Role) (s : String)
    (b : Booking) (hok : handleSubmit h d n ρ [s] = .ok b) :
    trimStr n ≠ "" ∧
    capacityFailsAt (slotStatus h d) s = false ∧
    (roleIsLeader ρ = true → leaderOccupiedAt (slotStatus h d) s = false) ∧
    (roleIsLeader ρ && consecutiveFails h d (trimStr n) [s]) = false ∧
    isDuplicate h d (trimStr n) [s] = false ∧
    b = mkBooking d (trimStr n) ρ [s] := by
  rw [handleSubmit_eq_staged h d n ρ [s] (by simp)] at hok
  unfold stagedValidate at hok
  split at hok
  · exact absurd hok (by simp)
  split at hok
  · exact absurd hok (by simp)
  split at hok
  · exact absurd hok (by simp)
  split at hok
  · exact absurd hok (by simp)
  split at hok
  · exact absurd hok (by simp)
  split at hok
  · exact absurd hok (by simp)
  rename_i hwf1 hwf2 x1 hcap x2 hldr hcons hdup
  refine ⟨?_, ?_, ?_, ?_, ?_, ?_⟩
  · intro hn
    exact hwf2 (by simp [wfNameFails, hn])
  · have : ¬ capacityFailsAt (slotStatus h d) s = true := by
      intro hct
      simp [findFail, hct] at hcap
    simpa using this
  · intro hρ
    rw [hρ] at hldr
    simp only [if_true] at hldr
    have : ¬ leaderOccupiedAt (slotStatus h d) s = true := by
      intro hlt
      simp [findFail, hlt] at hldr
    simpa using this
  · simpa using hcons
  · simpa using hdup
  · have := hok
    simpa [eq_comm] using this

/-! Bridging lemmas between the stage predicates and the spec-side
occupancy readings. -/

theorem capacityFailsAt_eq (h : List Booking) (d t : String) (ht : t ∈ TIME_SLOTS) :
    capacityFailsAt (slotStatus h d) t = decide (MAX_CAPACITY ≤ occCountSpec d t h) := by
  unfold capacityFailsAt
  rw [slotStatus_get h d t ht]

theorem leaderOccupiedAt_eq (h : List Booking) (d t : String) (ht : t ∈ TIME_SLOTS) :
    leaderOccupiedAt (slotStatus h d) t = hasLeaderSpec d t h := by
  unfold leaderOccupiedAt
  rw [slotStatus_get h d t ht]

/-- A catalog label splits and trims to itself. -/
theorem slotsOfStr_catalog (t : String) (ht : t ∈ TIME_SLOTS) : slotsOfStr t = [t] := by
  fin_cases ht <;> decide

/-- The inserted record of a single-slot submission, in explicit form. -/
theorem mkBooking_singleton (d n : String) (ρ : Role) (s : String) :
    mkBooking d n ρ [s] = ⟨d, s, n, roleString ρ⟩ := rfl

theorem occCountSpec_append (d t : String) (h₁ h₂ : List Booking) :
    occCountSpec d t (h₁ ++ h₂) = occCountSpec d t h₁ + occCountSpec d t h₂ := by
  induction h₁ with
  | nil => simp [occCountSpec]
  | cons b rest ih => simp [occCountSpec, ih]; omega

theorem leaderCountSpec_append (d t : String) (h₁ h₂ : List Booking) :
    leaderCountSpec d t (h₁ ++ h₂) = leaderCountSpec d t h₁ + leaderCountSpec d t h₂ := by
  induction h₁ with
  | nil => simp [leaderCountSpec]
  | cons b rest ih => simp [leaderCountSpec, ih]; omega

/-- The derived leader flag is clear exactly when no leader record occupies
the pair. -/
theorem hasLeaderSpec_false_iff (d t : String) (h : List Booking) :
    hasLeaderSpec d t h = false ↔ leaderCountSpec d t h = 0 := by
  induction h with
  | nil => simp [hasLeaderSpec, leaderCountSpec]
  | cons b rest ih =>
    by_cases hc : ((b.date == d) && ((b.members == "leader") && hasOcc t (slotsOf b))) = true <;>
      simp_all [hasLeaderSpec, leaderCountSpec]

/-- One admitted or rejected submission keeps the occupant count of every
catalog pair within capacity. -/
theorem occ_step (h : List Booking) (r : SubmitReq) (d t : String)
    (ht : t ∈ TIME_SLOTS) (hr : r.slot ∈ TIME_SLOTS)
    (hin : occCountSpec d t h ≤ MAX_CAPACITY) :
    occCountSpec d t (applySubmit h r) ≤ MAX_CAPACITY := by
  unfold applySubmit
  cases hsub : handleSubmit h r.date r.name r.role [r.slot] with
  | error e => exact hin
  | ok b =>
    obtain ⟨-, hcap, -, -, -, hb⟩ := handleSubmit_ok_inv _ _ _ _ _ _ hsub
    subst hb
    rw [occCountSpec_append]
    by_cases hd : (r.date == d) = true
    · by_cases hts : r.slot = t
      · subst hts
        have hdd : r.date = d := by simpa using hd
        subst hdd
        have hone : occCountSpec r.date r.slot
            [mkBooking r.date (trimStr r.name) r.role [r.slot]] = 1 := by
          simp [occCountSpec, mkBooking_singleton, slotsOf, slotsOfStr_catalog r.slot hr,
            countOcc]
        rw [capacityFailsAt_eq h r.date r.slot hr] at hcap
        have hlt : ¬ (MAX_CAPACITY ≤ occCountSpec r.date r.slot h) := by simpa using hcap
        omega
      · have hzero : occCountSpec d t
            [mkBooking r.date (trimStr r.name) r.role [r.slot]] = 0 := by
          have hne : (r.slot == t) = false := by simp [hts]
          simp [occCountSpec, mkBooking_singleton, slotsOf, slotsOfStr_catalog r.slot hr,
            countOcc, hne]
        omega
    · have hzero : occCountSpec d t
          [mkBooking r.date (trimStr r.name) r.role [r.slot]] = 0 := by
        simp [occCountSpec, mkBooking_singleton, hd]
      omega

/-- The capacity invariant is preserved along any sequence of catalog-slot
submissions. -/
theorem occ_invariant (d t : String) (ht : t ∈ TIME_SLOTS) (rs : List SubmitReq) :
    ∀ h : List Booking, (∀ r ∈ rs, r.slot ∈ TIME_SLOTS) →
      occCountSpec d t h ≤ MAX_CAPACITY →
      occCountSpec d t (processAll h rs) ≤ MAX_CAPACITY := by
  induction rs with
  | nil => intro h _ hin; exact hin
  | cons r rest ih =>
    intro h hs hin
    show occCountSpec d t (processAll (applySubmit h r) rest) ≤ MAX_CAPACITY
    exact ih (applySubmit h r) (fun r' hr' => hs r' (by simp [hr']))
      (occ_step h r d t ht (hs r (by simp)) hin)

/-- A request for a catalog slot already at capacity is rejected with
`SlotFull` (given the cheaper well-formedness stage passes). -/
theorem full_rejects (h : List Booking) (d name : String) (ρ : Role) (t : String)
    (ht : t ∈ TIME_SLOTS) (hn : trimStr name ≠ "")
    (hfull : MAX_CAPACITY ≤ occCountSpec d t h) :
    handleSubmit h d name ρ [t] = .error (.SlotFull t) := by
  rw [handleSubmit_eq_staged _ _ _ _ _ (by simp)]
  unfold stagedValidate
  have h2 : wfNameFails name = false := by simp [wfNameFails, hn]
  have h3 : capacityFailsAt (slotStatus h d) t = true := by
    rw [capacityFailsAt_eq h d t ht]
    simpa using hfull
  simp [wfSlotFails, h2, findFail, h3]

/-- A leader request for a catalog slot that already shows a leader (and is
not full) is rejected with `LeaderConflict`. -/
theorem leader_conflict_rejects (h : List Booking) (d name t : String)
    (ht : t ∈ TIME_SLOTS) (hn : trimStr name ≠ "")
    (hcap : occCountSpec d t h < MAX_CAPACITY) (hld : hasLeaderSpec d t h = true) :
    handleSubmit h d name .leader [t] = .error (.LeaderConflict t) := by
  rw [handleSubmit_eq_staged _ _ _ _ _ (by simp)]
  unfold stagedValidate
  have h2 : wfNameFails name = false := by simp [wfNameFails, hn]
  have h3 : capacityFailsAt (slotStatus h d) t = false := by
    rw [capacityFailsAt_eq h d t ht]
    simp
    omega
  have h4 : leaderOccupiedAt (slotStatus h d) t = true := by
    rw [leaderOccupiedAt_eq h d t ht]
    exact hld
  simp [wfSlotFails, h2, findFail, h3, h4, roleIsLeader]

/-- The per-slot loop never reports a leader conflict for a member
request. -/
theorem checkSlots_member_no_leader (status : SMap) (sel : List String) (s' : String) :
    checkSlots status .member sel ≠ some (.LeaderConflict s') := by
  induction sel with
  | nil => simp [checkSlots]
  | cons s rest ih =>
    simp only [checkSlots]
    cases hg : mapGet status s with
    | none => exact ih
    | some st =>
      by_cases hc : MAX_CAPACITY ≤ st.count
      · simp [hc]
      · simpa [hc, roleIsLeader] using ih

/-- A member submission is never rejected with `LeaderConflict`. -/
theorem member_no_leader_conflict (h : List Booking) (d name : String)
    (sel : List String) (s' : String) :
    handleSubmit h d name .member sel ≠ .error (.LeaderConflict s') := by
  intro heq
  unfold handleSubmit at heq
  split at heq
  · simp at heq
  split at heq
  · simp at heq
  split at heq
  · rename_i r hr
    have : r = .LeaderConflict s' := by simpa using heq
    subst this
    exact checkSlots_member_no_leader _ _ _ hr
  · split at heq
    · simp at heq
    · split at heq
      · simp at heq
      · simp at heq

/-- One submission keeps the number of leader records of every catalog pair
at most one. -/
theorem ldr_step (h : List Booking) (r : SubmitReq) (d t : String)
    (ht : t ∈ TIME_SLOTS) (hr : r.slot ∈ TIME_SLOTS)
    (hin : leaderCountSpec d t h ≤ 1) :
    leaderCountSpec d t (applySubmit h r) ≤ 1 := by
  unfold applySubmit
  cases hsub : handleSubmit h r.date r.name r.role [r.slot] with
  | error e => exact hin
  | ok b =>
    obtain ⟨-, -, hldr, -, -, hb⟩ := handleSubmit_ok_inv _ _ _ _ _ _ hsub
    subst hb
    rw [leaderCountSpec_append]
    cases hρ : r.role with
    | member =>
      have hzero : leaderCountSpec d t
          [mkBooking r.date (trimStr r.name) .member [r.slot]] = 0 := by
        simp [leaderCountSpec, mkBooking_singleton, roleString]
      omega
    | leader =>
      by_cases hd : (r.date == d) = true
      · by_cases hts : r.slot = t
        · subst hts
          have hdd : r.date = d := by simpa using hd
          subst hdd
          have hflag : leaderOccupiedAt (slotStatus h r.date) r.slot = false := by
            apply hldr
            rw [hρ]
            rfl
          rw [leaderOccupiedAt_eq h r.date r.slot hr] at hflag
          have hzero : leaderCountSpec r.date r.slot h = 0 :=
            (hasLeaderSpec_false_iff _ _ _).mp hflag
          have hone : leaderCountSpec r.date r.slot
              [mkBooking r.date (trimStr r.name) .leader [r.slot]] ≤ 1 := by
            simp [leaderCountSpec, mkBooking_singleton, roleString, slotsOf,
              slotsOfStr_catalog r.slot hr, hasOcc]
          omega
        · have hne : (r.slot == t) = false := by simp [hts]
          have hzero : leaderCountSpec d t
              [mkBooking r.date (trimStr r.name) .leader [r.slot]] = 0 := by
            simp [leaderCountSpec, mkBooking_singleton, slotsOf,
              slotsOfStr_catalog r.slot hr, hasOcc, hne]
          omega
      · have hzero : leaderCountSpec d t
            [mkBooking r.date (trimStr r.name) .leader [r.slot]] = 0 := by
          simp [leaderCountSpec, mkBooking_singleton, hd]
        omega

/-- The leader-uniqueness invariant is preserved along any sequence of
catalog-slot submissions. -/
theorem ldr_invariant (d t : String) (ht : t ∈ TIME_SLOTS) (rs : List SubmitReq) :
    ∀ h : List Booking, (∀ r ∈ rs, r.slot ∈ TIME_SLOTS) →
      leaderCountSpec d t h ≤ 1 →
      leaderCountSpec d t (processAll h rs) ≤ 1 := by
  induction rs with
  | nil => intro h _ hin; exact hin
  | cons r rest ih =>
    intro h hs hin
    show leaderCountSpec d t (processAll (applySubmit h r) rest) ≤ 1
    exact ih (applySubmit h r) (fun r' hr' => hs r' (by simp [hr']))
      (ldr_step h r d t ht (hs r (by simp)) hin)

/-- Full characterization of a `DuplicateBooking` rejection on a single-slot
request: the duplicate test fires exactly when all earlier stages pass and
some history record matches; the test itself never looks at any role. -/
theorem dup_stage_iff (h : List Booking) (d name : String) (ρ : Role) (s : String) :
    handleSubmit h d name ρ [s] = .error .DuplicateBooking ↔
      (trimStr name ≠ "" ∧
       capacityFailsAt (slotStatus h d) s = false ∧
       (roleIsLeader ρ && leaderOccupiedAt (slotStatus h d) s) = false ∧
       (roleIsLeader ρ && consecutiveFails h d (trimStr name) [s]) = false ∧
       isDuplicate h d (trimStr name) [s] = true) := by
  rw [handleSubmit_eq_staged _ _ _ _ _ (by simp)]
  unfold stagedValidate
  by_cases h2 : (trimStr name == "") = true
  · have h2' : trimStr name = "" := by simpa using h2
    simp [wfSlotFails, wfNameFails, h2, h2']
  · have h2' : trimStr name ≠ "" := by simpa using h2
    have h2f : wfNameFails name = false := by simp [wfNameFails, h2']
    cases h3 : capacityFailsAt (slotStatus h d) s with
    | true => simp [wfSlotFails, h2f, findFail, h3]
    | false =>
      cases hρ : roleIsLeader ρ with
      | false =>
        cases h6 : isDuplicate h d (trimStr name) [s] with
        | true => simp [wfSlotFails, h2f, findFail, h3, hρ, h6, h2']
        | false => simp [wfSlotFails, h2f, findFail, h3, hρ, h6]
      | true =>
        cases h4 : leaderOccupiedAt (slotStatus h d) s with
        | true => simp [wfSlotFails, h2f, findFail, h3, hρ, h4]
        | false =>
          cases h5 : consecutiveFails h d (trimStr name) [s] with
          | true => simp [wfSlotFails, h2f, findFail, h3, hρ, h4, h5]
          | false =>
            cases h6 : isDuplicate h d (trimStr name) [s] with
            | true => simp [wfSlotFails, h2f, findFail, h3, hρ, h4, h5, h6, h2']
            | false => simp [wfSlotFails, h2f, findFail, h3, hρ, h4, h5, h6]

/-- An admitted member submission resubmitted identically is rejected by the
duplicate stage, provided the slot is still under capacity after the first
insert. -/
theorem dup_member_second (h : List Booking) (d name s : String) (b : Booking)
    (hs : s ∈ TIME_SLOTS)
    (hok : handleSubmit h d name .member [s] = .ok b)
    (hcap2 : occCountSpec d s h + 1 < MAX_CAPACITY) :
    handleSubmit (h ++ [b]) d name .member [s] = .error .DuplicateBooking := by
  obtain ⟨hn, hcap, -, -, -, hb⟩ := handleSubmit_ok_inv _ _ _ _ _ _ hok
  subst hb
  refine (dup_stage_iff _ _ _ _ _).mpr ⟨hn, ?_, ?_, ?_, ?_⟩
  · rw [capacityFailsAt_eq _ _ _ hs, occCountSpec_append]
    have hone : occCountSpec d s [mkBooking d (trimStr name) .member [s]] = 1 := by
      simp [occCountSpec, mkBooking_singleton, slotsOf, slotsOfStr_catalog s hs, countOcc]
    rw [hone]
    simp
    omega
  · simp [roleIsLeader]
  · simp [roleIsLeader]
  · unfold isDuplicate
    refine List.any_eq_true.mpr ⟨mkBooking d (trimStr name) .member [s], by simp, ?_⟩
    simp [mkBooking_singleton, slotsOf, slotsOfStr_catalog s hs, listHas]

/-- Full characterization of a `ConsecutiveLeadership` rejection on a
single-slot leader request. -/
theorem consecutive_iff (h : List Booking) (d name s : String) :
    handleSubmit h d name .leader [s] = .error .ConsecutiveLeadership ↔
      (trimStr name ≠ "" ∧
       capacityFailsAt (slotStatus h d) s = false ∧
       leaderOccupiedAt (slotStatus h d) s = false ∧
       consecutiveFails h d (trimStr name) [s] = true) := by
  rw [handleSubmit_eq_staged _ _ _ _ _ (by simp)]
  unfold stagedValidate
  by_cases h2 : (trimStr name == "") = true
  · have h2' : trimStr name = "" := by simpa using h2
    simp [wfSlotFails, wfNameFails, h2, h2']
  · have h2' : trimStr name ≠ "" := by simpa using h2
    have h2f : wfNameFails name = false := by simp [wfNameFails, h2']
    cases h3 : capacityFailsAt (slotStatus h d) s with
    | true => simp [wfSlotFails, h2f, findFail, h3]
    | false =>
      cases h4 : leaderOccupiedAt (slotStatus h d) s with
      | true => simp [wfSlotFails, h2f, findFail, h3, h4, roleIsLeader]
      | false =>
        cases h5 : consecutiveFails h d (trimStr name) [s] with
        | true => simp [wfSlotFails, h2f, findFail, h3, h4, h5, roleIsLeader, h2']
        | false =>
          cases h6 : isDuplicate h d (trimStr name) [s] with
          | true => simp [wfSlotFails, h2f, findFail, h3, h4, h5, h6, roleIsLeader]
          | false => simp [wfSlotFails, h2f, findFail, h3, h4, h5, h6, roleIsLeader]

/-- The per-slot loop only ever reports `SlotFull` or `LeaderConflict`. -/
theorem checkSlots_no_consecutive (status : SMap) (ρ : Role) (sel : List String) :
    checkSlots status ρ sel ≠ some .ConsecutiveLeadership := by
  induction sel with
  | nil => simp [checkSlots]
  | cons s rest ih =>
    simp only [checkSlots]
    cases hg : mapGet status s with
    | none => exact ih
    | some st =>
      by_cases hc : MAX_CAPACITY ≤ st.count
      · simp [hc]
      · by_cases hl : (roleIsLeader ρ && st.hasLeader) = true
        · simp [hc, hl]
        · simpa [hc, hl] using ih

/-- The anti-consecutive-leadership stage is never evaluated for a member
request: no member submission is rejected with `ConsecutiveLeadership`. -/
theorem member_no_consecutive (h : List Booking) (d name : String) (sel : List String) :
    handleSubmit h d name .member sel ≠ .error .ConsecutiveLeadership := by
  intro heq
  unfold handleSubmit at heq
  split at heq
  · simp at heq
  split at heq
  · simp at heq
  split at heq
  · rename_i r hr
    have : r = .ConsecutiveLeadership := by simpa using heq
    subst this
    exact checkSlots_no_consecutive _ _ _ hr
  · split at heq
    · rename_i hcons
      simp [roleIsLeader] at hcons
    · split at heq
      · simp at heq
      · simp at heq

/-- Concrete adjacency instance: a booker already recorded as leader at
catalog position `i` on the date is rejected with `ConsecutiveLeadership`
when requesting leader for the slot at position `i + 1`, although that slot
alone has no leader. -/
theorem consecutive_instance (i : Nat) (hi : i + 1 < TIME_SLOTS.length) (d name : String)
    (hn : trimStr name ≠ "") :
    handleSubmit [⟨d, TIME_SLOTS[i]!, trimStr name, "leader"⟩] d name .leader
        [TIME_SLOTS[i + 1]!] = .error .ConsecutiveLeadership := by
  have hsplit0 : slotsOfStr "9:00-13:00" = ["9:00-13:00"] := by decide
  have hsplit1 : slotsOfStr "14:00-18:00" = ["14:00-18:00"] := by decide
  match i, hi with
  | 0, _ =>
    have e0 : (TIME_SLOTS[0]! : String) = "9:00-13:00" := by decide
    have e1 : (TIME_SLOTS[0 + 1]! : String) = "14:00-18:00" := by decide
    rw [e0, e1]
    refine (consecutive_iff _ _ _ _).mpr ⟨hn, ?_, ?_, ?_⟩
    · rw [capacityFailsAt_eq _ _ _ (by decide)]
      have e2 : countOcc "14:00-18:00" (slotsOfStr "9:00-13:00") = 0 := by decide
      simp [occCountSpec, slotsOf, e2]
      decide
    · rw [leaderOccupiedAt_eq _ _ _ (by decide)]
      have e3 : hasOcc "14:00-18:00" (slotsOfStr "9:00-13:00") = false := by decide
      simp [hasLeaderSpec, slotsOf, e3]
    · unfold consecutiveFails
      have hfilter : ([(⟨d, "9:00-13:00", trimStr name, "leader"⟩ : Booking)].filter fun b =>
          b.date == d && b.leader == trimStr name && b.members == "leader") =
          [(⟨d, "9:00-13:00", trimStr name, "leader"⟩ : Booking)] := by
        simp
      rw [hfilter]
      have e4 : slotsOf (⟨d, "9:00-13:00", trimStr name, "leader"⟩ : Booking) =
          ["9:00-13:00"] := hsplit0
      simp only [List.map_cons, List.map_nil, e4]
      decide
  | 1, _ =>
    have e0 : (TIME_SLOTS[1]! : String) = "14:00-18:00" := by decide
    have e1 : (TIME_SLOTS[1 + 1]! : String) = "19:00-22:30" := by decide
    rw [e0, e1]
    refine (consecutive_iff _ _ _ _).mpr ⟨hn, ?_, ?_, ?_⟩
    · rw [capacityFailsAt_eq _ _ _ (by decide)]
      have e2 : countOcc "19:00-22:30" (slotsOfStr "14:00-18:00") = 0 := by decide
      simp [occCountSpec, slotsOf, e2]
      decide
    · rw [leaderOccupiedAt_eq _ _ _ (by decide)]
      have e3 : hasOcc "19:00-22:30" (slotsOfStr "14:00-18:00") = false := by decide
      simp [hasLeaderSpec, slotsOf, e3]
    · unfold consecutiveFails
      have hfilter : ([(⟨d, "14:00-18:00", trimStr name, "leader"⟩ : Booking)].filter fun b =>
          b.date == d && b.leader == trimStr name && b.members == "leader") =
          [(⟨d, "14:00-18:00", trimStr name, "leader"⟩ : Booking)] := by
        simp
      rw [hfilter]
      have e4 : slotsOf (⟨d, "14:00-18:00", trimStr name, "leader"⟩ : Booking) =
          ["14:00-18:00"] := hsplit1
      simp only [List.map_cons, List.map_nil, e4]
      decide

/-- One toggle keeps the selection at no more than one label. -/
theorem toggleSlot_len (status : SMap) (sel : List String) (s : String)
    (hsel : sel.length ≤ 1) : (toggleSlot status sel s).length ≤ 1 := by
  unfold toggleSlot
  split
  · exact hsel
  · split
    · exact hsel
    · split
      · simp
      · simp

/-- Along any sequence of toggles starting from the empty selection, the
selection holds at most one label. -/
theorem toggles_fold (l : List (SMap × String)) :
    ∀ sel : List String, sel.length ≤ 1 →
      (l.foldl (fun sel p => toggleSlot p.1 sel p.2) sel).length ≤ 1 := by
  induction l with
  | nil => intro sel hs; exact hs
  | cons p rest ih => intro sel hs; exact ih _ (toggleSlot_len p.1 sel p.2 hs)

/-- Every record of a store grown from empty by submissions carries a
trimmed name. -/
theorem trimmed_reachable (rs : List SubmitReq) :
    ∀ h : List Booking, (∀ b ∈ h, ∃ n, b.leader = trimStr n) →
      ∀ b ∈ processAll h rs, ∃ n, b.leader = trimStr n := by
  induction rs with
  | nil => intro h hh b hb; exact hh b hb
  | cons r rest ih =>
    intro h hh b hb
    refine ih (applySubmit h r) ?_ b hb
    intro b' hb'
    unfold applySubmit at hb'
    cases hsub : handleSubmit h r.date r.name r.role [r.slot] with
    | error e =>
      rw [hsub] at hb'
      exact hh b' hb'
    | ok bk =>
      rw [hsub] at hb'
      rcases List.mem_append.mp hb' with hmem | hmem
      · exact hh b' hmem
      · obtain ⟨-, -, -, -, -, hbk⟩ := handleSubmit_ok_inv _ _ _ _ _ _ hsub
        have hb'' : b' = bk := by simpa using hmem
        subst hb''
        refine ⟨r.name, ?_⟩
        rw [hbk]
        rfl

/-- Admission happens exactly when every stage predicate passes. -/
theorem stagedValidate_ok_iff (h : List Booking) (d n : String) (ρ : Role) (sel : List String) :
    (∃ b, stagedValidate h d n ρ sel = .ok b) ↔
      (wfSlotFails sel = false ∧ wfNameFails n = false ∧
       findFail (capacityFailsAt (slotStatus h d)) sel = none ∧
       (roleIsLeader ρ = true → findFail (leaderOccupiedAt (slotStatus h d)) sel = none) ∧
       (roleIsLeader ρ && consecutiveFails h d (trimStr n) sel) = false ∧
       isDuplicate h d (trimStr n) sel = false) := by
  unfold stagedValidate
  cases h1 : wfSlotFails sel with
  | true => simp [h1]
  | false =>
    cases h2 : wfNameFails n with
    | true => simp [h1, h2]
    | false =>
      cases h3 : findFail (capacityFailsAt (slotStatus h d)) sel with
      | some s => simp [h1, h2, h3]
      | none =>
        cases hρ : roleIsLeader ρ with
        | false =>
          cases h6 : isDuplicate h d (trimStr n) sel with
          | true => simp [h1, h2, h3, hρ, h6]
          | false => simp [h1, h2, h3, hρ, h6]
        | true =>
          cases h4 : findFail (leaderOccupiedAt (slotStatus h d)) sel with
          | some s => simp [h1, h2, h3, hρ, h4]
          | none =>
            cases h5 : consecutiveFails h d (trimStr n) sel with
            | true => simp [h1, h2, h3, hρ, h4, h5]
            | false =>
              cases h6 : isDuplicate h d (trimStr n) sel with
              | true => simp [h1, h2, h3, hρ, h4, h5, h6]
              | false => simp [h1, h2, h3, hρ, h4, h5, h6]

/-! The claims. -/

/-- C1: on every booking request of the spec's model (at most one chosen
slot) `handleSubmit` applies the five rule stages in the fixed order —
well-formedness (slot selected, then trimmed name non-empty), capacity,
role-uniqueness, anti-consecutive-leadership, duplicate submission — the
first failing stage determining the rejection reason with no later stage
consulted, and the request is admitted exactly when every stage passes. -/
theorem validation_stage_order (h : List Booking) (d n : String) (ρ : Role)
    (sel : List String) (hlen : sel.length ≤ 1) :
    handleSubmit h d n ρ sel = stagedValidate h d n ρ sel ∧
    ((∃ b, handleSubmit h d n ρ sel = .ok b) ↔
      (wfSlotFails sel = false ∧ wfNameFails n = false ∧
       findFail (capacityFailsAt (slotStatus h d)) sel = none ∧
       (roleIsLeader ρ = true → findFail (leaderOccupiedAt (slotStatus h d)) sel = none) ∧
       (roleIsLeader ρ && consecutiveFails h d (trimStr n) sel) = false ∧
       isDuplicate h d (trimStr n) sel = false)) := by
  refine ⟨handleSubmit_eq_staged h d n ρ sel hlen, ?_⟩
  rw [handleSubmit_eq_staged h d n ρ sel hlen]
  exact stagedValidate_ok_iff h d n ρ sel

/-- Witness for C1 at a concrete admitted request. -/
theorem validation_stage_order_witness :
    (["9:00-13:00"] : List String).length ≤ 1 ∧
    (handleSubmit [] "2026-01-10" "A" Role.member ["9:00-13:00"] =
        stagedValidate [] "2026-01-10" "A" Role.member ["9:00-13:00"] ∧
      ((∃ b, handleSubmit [] "2026-01-10" "A" Role.member ["9:00-13:00"] = .ok b) ↔
        (wfSlotFails ["9:00-13:00"] = false ∧ wfNameFails "A" = false ∧
         findFail (capacityFailsAt (slotStatus [] "2026-01-10")) ["9:00-13:00"] = none ∧
         (roleIsLeader Role.member = true →
           findFail (leaderOccupiedAt (slotStatus [] "2026-01-10")) ["9:00-13:00"] = none) ∧
         (roleIsLeader Role.member &&
           consecutiveFails [] "2026-01-10" (trimStr "A") ["9:00-13:00"]) = false ∧
         isDuplicate [] "2026-01-10" (trimStr "A") ["9:00-13:00"] = false))) :=
  ⟨by decide, validation_stage_order [] "2026-01-10" "A" Role.member ["9:00-13:00"] (by decide)⟩

/-- C2: a single-slot leader request is rejected with
`ConsecutiveLeadership` exactly when the earlier stages pass and the
gathered existing-leader slots unioned with the request, mapped to catalog
positions and sorted, contain two adjacent positions differing by one; in
particular a booker already leading catalog position `i` requesting
position `i + 1` is rejected although that slot alone has no leader; and no
member request is ever rejected by this stage. -/
theorem consecutive_leadership_rule :
    (∀ (h : List Booking) (d name s : String),
      handleSubmit h d name .leader [s] = .error .ConsecutiveLeadership ↔
        (trimStr name ≠ "" ∧ capacityFailsAt (slotStatus h d) s = false ∧
         leaderOccupiedAt (slotStatus h d) s = false ∧
         consecutiveFails h d (trimStr name) [s] = true)) ∧
    (∀ i : Nat, i + 1 < TIME_SLOTS.length → ∀ (d name : String), trimStr name ≠ "" →
      handleSubmit [⟨d, TIME_SLOTS[i]!, trimStr name, "leader"⟩] d name .leader
          [TIME_SLOTS[i + 1]!] = .error .ConsecutiveLeadership) ∧
    (∀ (h : List Booking) (d name : String) (sel : List String),
      handleSubmit h d name .member sel ≠ .error .ConsecutiveLeadership) :=
  ⟨consecutive_iff,
   fun i hi d name hn => consecutive_instance i hi d name hn,
   member_no_consecutive⟩

/-- Witness for C2: leading slot 0, requesting slot 1. -/
theorem consecutive_leadership_rule_witness :
    0 + 1 < TIME_SLOTS.length ∧ trimStr "A" ≠ "" ∧
    handleSubmit [⟨"2026-01-10", TIME_SLOTS[0]!, trimStr "A", "leader"⟩] "2026-01-10" "A"
        .leader [TIME_SLOTS[0 + 1]!] = .error .ConsecutiveLeadership :=
  ⟨by decide, by decide,
   consecutive_leadership_rule.2.1 0 (by decide) "2026-01-10" "A" (by decide)⟩

/-- C3: along any sequence of submissions (each for one catalog slot)
processed from a history within capacity, the derived occupant count of
every catalog (date, slot) pair never exceeds `MAX_CAPACITY = 3`; and a
well-formed request for a pair already at or above capacity is rejected
with `SlotFull` before any insert. -/
theorem capacity_invariant (h0 : List Booking) (rs : List SubmitReq) (d t : String)
    (ht : t ∈ TIME_SLOTS) (hsubs : ∀ r ∈ rs, r.slot ∈ TIME_SLOTS)
    (hinit : occCountSpec d t h0 ≤ MAX_CAPACITY) :
    occCountSpec d t (processAll h0 rs) ≤ MAX_CAPACITY ∧
    (∀ (h1 : List Booking) (name : String) (ρ : Role), trimStr name ≠ "" →
      MAX_CAPACITY ≤ occCountSpec d t h1 →
      handleSubmit h1 d name ρ [t] = .error (.SlotFull t)) :=
  ⟨occ_invariant d t ht rs h0 hsubs hinit,
   fun h1 name ρ hn hf => full_rejects h1 d name ρ t ht hn hf⟩

/-- Witness for C3: four successive member requests for the same slot leave
its count at capacity. -/
theorem capacity_invariant_witness :
    "9:00-13:00" ∈ TIME_SLOTS ∧
    (∀ r ∈ ([⟨"2026-01-10", "A", Role.member, "9:00-13:00"⟩,
             ⟨"2026-01-10", "B", Role.member, "9:00-13:00"⟩,
             ⟨"2026-01-10", "C", Role.member, "9:00-13:00"⟩,
             ⟨"2026-01-10", "D", Role.member, "9:00-13:00"⟩] : List SubmitReq),
       r.slot ∈ TIME_SLOTS) ∧
    occCountSpec "2026-01-10" "9:00-13:00" [] ≤ MAX_CAPACITY ∧
    (occCountSpec "2026-01-10" "9:00-13:00"
        (processAll [] [⟨"2026-01-10", "A", Role.member, "9:00-13:00"⟩,
                        ⟨"2026-01-10", "B", Role.member, "9:00-13:00"⟩,
                        ⟨"2026-01-10", "C", Role.member, "9:00-13:00"⟩,
                        ⟨"2026-01-10", "D", Role.member, "9:00-13:00"⟩]) ≤ MAX_CAPACITY ∧
     (∀ (h1 : List Booking) (name : String) (ρ : Role), trimStr name ≠ "" →
       MAX_CAPACITY ≤ occCountSpec "2026-01-10" "9:00-13:00" h1 →
       handleSubmit h1 "2026-01-10" name ρ ["9:00-13:00"] =
         .error (.SlotFull "9:00-13:00"))) :=
  ⟨by decide, by decide, by decide,
   capacity_invariant [] [⟨"2026-01-10", "A", Role.member, "9:00-13:00"⟩,
                          ⟨"2026-01-10", "B", Role.member, "9:00-13:00"⟩,
                          ⟨"2026-01-10", "C", Role.member, "9:00-13:00"⟩,
                          ⟨"2026-01-10", "D", Role.member, "9:00-13:00"⟩]
     "2026-01-10" "9:00-13:00" (by decide) (by decide) (by decide)⟩

/-- C4: along any sequence of single-catalog-slot submissions from a
history with at most one leader per pair, every catalog (date, slot) pair
keeps at most one leader reservation; a leader request for a pair whose
index shows a leader (and which is under capacity) is rejected with
`LeaderConflict`; and a member request is never rejected by this stage. -/
theorem leader_uniqueness_invariant (h0 : List Booking) (rs : List SubmitReq) (d t : String)
    (ht : t ∈ TIME_SLOTS) (hsubs : ∀ r ∈ rs, r.slot ∈ TIME_SLOTS)
    (hinit : leaderCountSpec d t h0 ≤ 1) :
    leaderCountSpec d t (processAll h0 rs) ≤ 1 ∧
    (∀ (h1 : List Booking) (name : String), trimStr name ≠ "" →
      occCountSpec d t h1 < MAX_CAPACITY → hasLeaderSpec d t h1 = true →
      handleSubmit h1 d name .leader [t] = .error (.LeaderConflict t)) ∧
    (∀ (h1 : List Booking) (d1 name : String) (sel : List String) (s1 : String),
      handleSubmit h1 d1 name .member sel ≠ .error (.LeaderConflict s1)) :=
  ⟨ldr_invariant d t ht rs h0 hsubs hinit,
   fun h1 name hn hc hl => leader_conflict_rejects h1 d name t ht hn hc hl,
   fun h1 d1 name sel s1 => member_no_leader_conflict h1 d1 name sel s1⟩

/-- Witness for C4: two successive leader requests for the same pair. -/
theorem leader_uniqueness_invariant_witness :
    "9:00-13:00" ∈ TIME_SLOTS ∧
    (∀ r ∈ ([⟨"2026-01-10", "A", Role.leader, "9:00-13:00"⟩,
             ⟨"2026-01-10", "B", Role.leader, "9:00-13:00"⟩] : List SubmitReq),
       r.slot ∈ TIME_SLOTS) ∧
    leaderCountSpec "2026-01-10" "9:00-13:00" [] ≤ 1 ∧
    (leaderCountSpec "2026-01-10" "9:00-13:00"
        (processAll [] [⟨"2026-01-10", "A", Role.leader, "9:00-13:00"⟩,
                        ⟨"2026-01-10", "B", Role.leader, "9:00-13:00"⟩]) ≤ 1 ∧
     (∀ (h1 : List Booking) (name : String), trimStr name ≠ "" →
       occCountSpec "2026-01-10" "9:00-13:00" h1 < MAX_CAPACITY →
       hasLeaderSpec "2026-01-10" "9:00-13:00" h1 = true →
       handleSubmit h1 "2026-01-10" name .leader ["9:00-13:00"] =
         .error (.LeaderConflict "9:00-13:00")) ∧
     (∀ (h1 : List Booking) (d1 name : String) (sel : List String) (s1 : String),
       handleSubmit h1 d1 name .member sel ≠ .error (.LeaderConflict s1))) :=
  ⟨by decide, by decide, by decide,
   leader_uniqueness_invariant [] [⟨"2026-01-10", "A", Role.leader, "9:00-13:00"⟩,
                                   ⟨"2026-01-10", "B", Role.leader, "9:00-13:00"⟩]
     "2026-01-10" "9:00-13:00" (by decide) (by decide) (by decide)⟩

/-- C5 counterexample: the identical leader-role request submitted twice is
admitted and then rejected with `LeaderConflict`, not `DuplicateBooking` —
the role-uniqueness stage fires before the duplicate stage. -/
theorem duplicate_idempotency_counterexample :
    handleSubmit [] "2026-01-10" "A" .leader ["9:00-13:00"] =
      .ok (⟨"2026-01-10", "9:00-13:00", "A", "leader"⟩ : Booking) ∧
    applySubmit [] ⟨"2026-01-10", "A", Role.leader, "9:00-13:00"⟩ =
      [(⟨"2026-01-10", "9:00-13:00", "A", "leader"⟩ : Booking)] ∧
    handleSubmit [⟨"2026-01-10", "9:00-13:00", "A", "leader"⟩] "2026-01-10" "A" .leader
      ["9:00-13:00"] = .error (.LeaderConflict "9:00-13:00") ∧
    handleSubmit [⟨"2026-01-10", "9:00-13:00", "A", "leader"⟩] "2026-01-10" "A" .leader
      ["9:00-13:00"] ≠ .error .DuplicateBooking :=
  ⟨by decide, by decide, by decide, by decide⟩

/-- C5 (amended): an admitted identical member-role resubmission is rejected
with `DuplicateBooking` when the slot stays under capacity after the first
insert (a leader resubmission is caught earlier by `LeaderConflict`); and
the duplicate stage fires exactly when the earlier stages pass and some
history record has the same date, the same trimmed name and occupies the
chosen slot — a test that consults no role. -/
theorem duplicate_idempotency_amended :
    (∀ (h : List Booking) (d name s : String) (b : Booking), s ∈ TIME_SLOTS →
      handleSubmit h d name .member [s] = .ok b →
      occCountSpec d s h + 1 < MAX_CAPACITY →
      handleSubmit (h ++ [b]) d name .member [s] = .error .DuplicateBooking) ∧
    (∀ (h : List Booking) (d name : String) (ρ : Role) (s : String),
      handleSubmit h d name ρ [s] = .error .DuplicateBooking ↔
        (trimStr name ≠ "" ∧ capacityFailsAt (slotStatus h d) s = false ∧
         (roleIsLeader ρ && leaderOccupiedAt (slotStatus h d) s) = false ∧
         (roleIsLeader ρ && consecutiveFails h d (trimStr name) [s]) = false ∧
         isDuplicate h d (trimStr name) [s] = true)) :=
  ⟨fun h d name s b hs hok hcap => dup_member_second h d name s b hs hok hcap,
   dup_stage_iff⟩

/-- Witness for amended C5: a member double submission on an empty store. -/
theorem duplicate_idempotency_amended_witness :
    "9:00-13:00" ∈ TIME_SLOTS ∧
    handleSubmit [] "2026-01-10" "A" .member ["9:00-13:00"] =
      .ok (⟨"2026-01-10", "9:00-13:00", "A", "member"⟩ : Booking) ∧
    occCountSpec "2026-01-10" "9:00-13:00" [] + 1 < MAX_CAPACITY ∧
    handleSubmit [⟨"2026-01-10", "9:00-13:00", "A", "member"⟩] "2026-01-10" "A" .member
      ["9:00-13:00"] = .error .DuplicateBooking :=
  ⟨by decide, by decide, by decide,
   duplicate_idempotency_amended.1 [] "2026-01-10" "A" "9:00-13:00"
     ⟨"2026-01-10", "9:00-13:00", "A", "member"⟩ (by decide) (by decide) (by decide)⟩

/-- C6: a submission writes to the store exactly when every stage passes —
any rejection returns before the insert and leaves the store unchanged; an
admitted submission appends exactly one record carrying the validated date,
slot, trimmed booker name and role string. -/
theorem submit_write_iff_all_pass (h : List Booking) (r : SubmitReq) :
    (∀ e, handleSubmit h r.date r.name r.role [r.slot] = .error e → applySubmit h r = h) ∧
    (∀ b, handleSubmit h r.date r.name r.role [r.slot] = .ok b →
      applySubmit h r = h ++ [b] ∧ b.date = r.date ∧ b.slot = r.slot ∧
      b.leader = trimStr r.name ∧ b.members = roleString r.role) := by
  constructor
  · intro e he
    unfold applySubmit
    rw [he]
  · intro b hb
    obtain ⟨-, -, -, -, -, hbk⟩ := handleSubmit_ok_inv _ _ _ _ _ _ hb
    refine ⟨by unfold applySubmit; rw [hb], ?_, ?_, ?_, ?_⟩
    · rw [hbk]
      rfl
    · rw [hbk]
      rfl
    · rw [hbk]
      rfl
    · rw [hbk]
      rfl

/-- Witness for C6: an empty-name rejection leaves the store unchanged and
an admitted request appends its record. -/
theorem submit_write_iff_all_pass_witness :
    (handleSubmit [] "2026-01-10" "  " Role.member ["9:00-13:00"] = .error .MissingName ∧
     applySubmit [] ⟨"2026-01-10", "  ", Role.member, "9:00-13:00"⟩ = []) ∧
    (handleSubmit [] "2026-01-10" " A " Role.member ["9:00-13:00"] =
       .ok (⟨"2026-01-10", "9:00-13:00", "A", "member"⟩ : Booking) ∧
     applySubmit [] ⟨"2026-01-10", " A ", Role.member, "9:00-13:00"⟩ =
       [(⟨"2026-01-10", "9:00-13:00", "A", "member"⟩ : Booking)] ∧
     (⟨"2026-01-10", "9:00-13:00", "A", "member"⟩ : Booking).date = "2026-01-10" ∧
     (⟨"2026-01-10", "9:00-13:00", "A", "member"⟩ : Booking).slot = "9:00-13:00" ∧
     (⟨"2026-01-10", "9:00-13:00", "A", "member"⟩ : Booking).leader = trimStr " A " ∧
     (⟨"2026-01-10", "9:00-13:00", "A", "member"⟩ : Booking).members =
       roleString Role.member) :=
  ⟨⟨by decide,
    (submit_write_iff_all_pass [] ⟨"2026-01-10", "  ", Role.member, "9:00-13:00"⟩).1
      .MissingName (by decide)⟩,
   ⟨by decide,
    (submit_write_iff_all_pass [] ⟨"2026-01-10", " A ", Role.member, "9:00-13:00"⟩).2
      ⟨"2026-01-10", "9:00-13:00", "A", "member"⟩ (by decide)⟩⟩

/-- C7: for every reservation list and date, the derived index holds an
entry for every catalog label — `{0, false}` when nothing matches — built
only from same-date reservations, each contributing one occupant per
occupied label occurrence and OR-ing the leader flag. -/
theorem slot_index_complete (h : List Booking) (d t : String) (ht : t ∈ TIME_SLOTS) :
    mapGet (slotStatus h d) t = some ⟨occCountSpec d t h, hasLeaderSpec d t h⟩ :=
  slotStatus_get h d t ht

/-- Witness for C7: a mixed store, including an off-date record. -/
theorem slot_index_complete_witness :
    "14:00-18:00" ∈ TIME_SLOTS ∧
    mapGet (slotStatus [⟨"2026-01-10", "9:00-13:00", "A", "leader"⟩,
                        ⟨"2026-01-11", "14:00-18:00", "B", "member"⟩] "2026-01-10")
        "14:00-18:00" =
      some ⟨occCountSpec "2026-01-10" "14:00-18:00"
              [⟨"2026-01-10", "9:00-13:00", "A", "leader"⟩,
               ⟨"2026-01-11", "14:00-18:00", "B", "member"⟩],
            hasLeaderSpec "2026-01-10" "14:00-18:00"
              [⟨"2026-01-10", "9:00-13:00", "A", "leader"⟩,
               ⟨"2026-01-11", "14:00-18:00", "B", "member"⟩]⟩ :=
  ⟨by decide,
   slot_index_complete [⟨"2026-01-10", "9:00-13:00", "A", "leader"⟩,
                        ⟨"2026-01-11", "14:00-18:00", "B", "member"⟩]
     "2026-01-10" "14:00-18:00" (by decide)⟩

/-- C8: the form selection holds at most one label along any toggle
sequence from the empty selection (full slots toggle nothing, re-selection
clears, other selection replaces), the well-formedness stage rejects an
empty selection, and an admitted single-catalog-slot submission writes a
record occupying exactly that one label. -/
theorem single_slot_invariant :
    (∀ l : List (SMap × String),
      (l.foldl (fun sel p => toggleSlot p.1 sel p.2) ([] : List String)).length ≤ 1) ∧
    (∀ (status : SMap) (sel : List String) (s : String) (st : SlotOcc),
      mapGet status s = some st →
      (MAX_CAPACITY ≤ st.count → toggleSlot status sel s = sel) ∧
      (st.count < MAX_CAPACITY → sel.contains s = true → toggleSlot status sel s = []) ∧
      (st.count < MAX_CAPACITY → sel.contains s = false → toggleSlot status sel s = [s])) ∧
    (∀ (h : List Booking) (d n : String) (ρ : Role),
      handleSubmit h d n ρ [] = .error .MissingSlot) ∧
    (∀ (h : List Booking) (d n s : String) (ρ : Role) (b : Booking), s ∈ TIME_SLOTS →
      handleSubmit h d n ρ [s] = .ok b → b.slot = s ∧ slotsOf b = [s]) := by
  refine ⟨?_, ?_, ?_, ?_⟩
  · intro l
    exact toggles_fold l [] (by simp)
  · intro status sel s st hget
    have hts : toggleSlot status sel s =
        if MAX_CAPACITY ≤ st.count then sel
        else if sel.contains s then [] else [s] := by
      unfold toggleSlot
      rw [hget]
    rw [hts]
    refine ⟨?_, ?_, ?_⟩
    · intro hc
      rw [if_pos hc]
    · intro hc hm
      rw [if_neg (by omega), if_pos hm]
    · intro hc hm
      have hmn : ¬ (sel.contains s = true) := by
        rw [hm]
        simp
      rw [if_neg (by omega), if_neg hmn]
  · intro h d n ρ
    rfl
  · intro h d n s ρ b hs hok
    obtain ⟨-, -, -, -, -, hbk⟩ := handleSubmit_ok_inv _ _ _ _ _ _ hok
    subst hbk
    refine ⟨rfl, ?_⟩
    show slotsOfStr (joinComma (sortStrings [s])) = [s]
    have hj : joinComma (sortStrings [s]) = s := rfl
    rw [hj]
    exact slotsOfStr_catalog s hs

/-- Witness for C8 at concrete toggles and a concrete admitted request. -/
theorem single_slot_invariant_witness :
    mapGet (slotStatus [] "2026-01-10") "9:00-13:00" = some ⟨0, false⟩ ∧
    (MAX_CAPACITY ≤ (0 : Nat) → toggleSlot (slotStatus [] "2026-01-10")
        ["14:00-18:00"] "9:00-13:00" = ["14:00-18:00"]) ∧
    ((0 : Nat) < MAX_CAPACITY → (["14:00-18:00"] : List String).contains "9:00-13:00" = false →
      toggleSlot (slotStatus [] "2026-01-10") ["14:00-18:00"] "9:00-13:00" = ["9:00-13:00"]) ∧
    "9:00-13:00" ∈ TIME_SLOTS ∧
    handleSubmit [] "2026-01-10" "A" Role.member ["9:00-13:00"] =
      .ok (⟨"2026-01-10", "9:00-13:00", "A", "member"⟩ : Booking) ∧
    ((⟨"2026-01-10", "9:00-13:00", "A", "member"⟩ : Booking).slot = "9:00-13:00" ∧
     slotsOf (⟨"2026-01-10", "9:00-13:00", "A", "member"⟩ : Booking) = ["9:00-13:00"]) :=
  ⟨by decide,
   fun hc => ((single_slot_invariant.2.1 (slotStatus [] "2026-01-10") ["14:00-18:00"]
     "9:00-13:00" ⟨0, false⟩ (by decide)).1 hc),
   fun hc hm => ((single_slot_invariant.2.1 (slotStatus [] "2026-01-10") ["14:00-18:00"]
     "9:00-13:00" ⟨0, false⟩ (by decide)).2.2 hc hm),
   by decide, by decide,
   single_slot_invariant.2.2.2 [] "2026-01-10" "A" "9:00-13:00" Role.member
     ⟨"2026-01-10", "9:00-13:00", "A", "member"⟩ (by decide) (by decide)⟩

/-- C9: the configured celebration date never affects the validation
outcome — the admitted record and any rejection reason are identical for any
two trigger dates — and on success the celebration flag is set exactly when
the request date equals the trigger date. -/
theorem celebration_noninterference (e₁ e₂ : String) (h : List Booking) (d n : String)
    (ρ : Role) (sel : List String) :
    Except.map Prod.fst (submitWithCelebration e₁ h d n ρ sel) =
      Except.map Prod.fst (submitWithCelebration e₂ h d n ρ sel) ∧
    (∀ (e : String) (b : Booking) (c : Bool),
      submitWithCelebration e h d n ρ sel = .ok (b, c) → (c = true ↔ d = e)) := by
  constructor
  · unfold submitWithCelebration
    cases handleSubmit h d n ρ sel <;> rfl
  · intro e b c hc
    unfold submitWithCelebration at hc
    cases hh : handleSubmit h d n ρ sel with
    | error r =>
      rw [hh] at hc
      simp at hc
    | ok bk =>
      rw [hh] at hc
      simp only [Except.ok.injEq, Prod.mk.injEq] at hc
      rw [← hc.2]
      exact beq_iff_eq

/-- Witness for C9: two different trigger dates at a concrete submission. -/
theorem celebration_noninterference_witness :
    Except.map Prod.fst
        (submitWithCelebration "2026-01-12" [] "2026-01-12" "A" Role.member ["9:00-13:00"]) =
      Except.map Prod.fst
        (submitWithCelebration "1999-01-01" [] "2026-01-12" "A" Role.member ["9:00-13:00"]) ∧
    submitWithCelebration "2026-01-12" [] "2026-01-12" "A" Role.member ["9:00-13:00"] =
      .ok (⟨"2026-01-12", "9:00-13:00", "A", "member"⟩, true) ∧
    (true = true ↔ ("2026-01-12" : String) = "2026-01-12") :=
  ⟨(celebration_noninterference "2026-01-12" "1999-01-01" [] "2026-01-12" "A" Role.member
      ["9:00-13:00"]).1,
   by decide,
   (celebration_noninterference "2026-01-12" "1999-01-01" [] "2026-01-12" "A" Role.member
      ["9:00-13:00"]).2 "2026-01-12" ⟨"2026-01-12", "9:00-13:00", "A", "member"⟩ true
     (by decide)⟩

/-- C10: every record produced by this core stores an already-trimmed
booker name — an admitted submission writes the trimmed name, so the
exact-equality comparisons of the anti-consecutive-leadership and duplicate
stages (which trim only the incoming name) compare trimmed against trimmed
on every record the core wrote. -/
theorem trimmed_name_invariant :
    (∀ (rs : List SubmitReq) (b : Booking), b ∈ processAll [] rs →
      ∃ n, b.leader = trimStr n) ∧
    (∀ (h : List Booking) (d name : String) (ρ : Role) (sel : List String) (b : Booking),
      handleSubmit h d name ρ sel = .ok b → b.leader = trimStr name) := by
  constructor
  · intro rs b hb
    exact trimmed_reachable rs [] (by simp) b hb
  · intro h d name ρ sel b hok
    unfold handleSubmit at hok
    split at hok
    · simp at hok
    split at hok
    · simp at hok
    split at hok
    · simp at hok
    split at hok
    · simp at hok
    split at hok
    · simp at hok
    have hb : b = mkBooking d (trimStr name) ρ sel := by
      simpa [eq_comm] using hok
    rw [hb]
    rfl

/-- Witness for C10 at a store grown by one submission with an untrimmed
name. -/
theorem trimmed_name_invariant_witness :
    (⟨"2026-01-10", "9:00-13:00", "A", "member"⟩ : Booking) ∈
      processAll [] [⟨"2026-01-10", " A ", Role.member, "9:00-13:00"⟩] ∧
    (∃ n, (⟨"2026-01-10", "9:00-13:00", "A", "member"⟩ : Booking).leader = trimStr n) :=
  ⟨by decide,
   trimmed_name_invariant.1 [⟨"2026-01-10", " A ", Role.member, "9:00-13:00"⟩]
     ⟨"2026-01-10", "9:00-13:00", "A", "member"⟩ (by decide)⟩
